import Mathlib

/-!
Shallow embedding of `src/app.py` (DocumentAnalyzer): document chunking,
PDF/Word text extraction, the Gemini answer generator, and the
question/document orchestration loop, together with proofs of the
specification's claims about them.

Python strings are modelled as Lean `String`s (slicing is performed on the
underlying character list, matching Python's character-indexed slicing);
the external LLM endpoint is an oracle parameter; external-library calls
that may raise are modelled with `Except`.
-/

namespace DocAnalyzer

/-- Embedding of `chunk_text`'s slicing on the character list:
`[text[i:i+chunk_size] for i in range(0, len(text), chunk_size)]`.
`range(0, len, step)` has `ceil(len/step)` elements `0, step, 2*step, ...`;
`text[i:i+n]` is `(drop i).take n`.  (For `chunk_size = 0` Python's `range`
raises `ValueError`; the claims only concern `chunk_size ≥ 1`.) -/
def chunkL (text : List Char) (chunk_size : Nat) : List (List Char) :=
  (List.range ((text.length + chunk_size - 1) / chunk_size)).map
    (fun j => (text.drop (j * chunk_size)).take chunk_size)

/-- Embedding of `chunk_text(text, chunk_size=5000)` from `src/app.py` lines 129-130. -/
def chunk_text (text : String) (chunk_size : Nat) : List String :=
  (chunkL text.toList chunk_size).map List.asString

lemma chunkL_nil (n : Nat) : chunkL [] n = [] := by
  unfold chunkL
  match n with
  | 0 => rfl
  | k + 1 =>
    have h : (([] : List Char).length + (k + 1) - 1) / (k + 1) = 0 := by
      simp [Nat.div_eq_of_lt]
    rw [h]
    rfl

lemma chunkL_cons (n : Nat) (hn : 1 ≤ n) (text : List Char) (h : text ≠ []) :
    chunkL text n = text.take n :: chunkL (text.drop n) n := by
  have hlen : 1 ≤ text.length := List.length_pos.mpr h
  have hcount : (text.length + n - 1) / n = (text.length - 1) / n + 1 := by
    have h1 : text.length + n - 1 = (text.length - 1) + n := by omega
    rw [h1, Nat.add_div_right _ (by omega : 0 < n)]
  have hcount2 : ((text.drop n).length + n - 1) / n = (text.length - 1) / n := by
    rw [List.length_drop]
    rcases Nat.le_total text.length n with hle | hle
    · have h1 : text.length - n = 0 := by omega
      rw [h1]
      have h2 : 0 + n - 1 < n := by omega
      have h3 : text.length - 1 < n := by omega
      rw [Nat.div_eq_of_lt h2, Nat.div_eq_of_lt h3]
    · have h1 : text.length - n + n - 1 = text.length - 1 := by omega
      rw [h1]
  unfold chunkL
  rw [hcount, hcount2, List.range_succ_eq_map, List.map_cons, List.map_map]
  congr 1
  · simp
  · apply List.map_congr_left
    intro j _
    simp only [Function.comp_apply]
    have harith : Nat.succ j * n = n + j * n := by
      rw [Nat.succ_mul]
      exact Nat.add_comm _ _
    rw [harith, ← List.drop_drop]

lemma chunkL_join (n : Nat) (hn : 1 ≤ n) :
    ∀ (fuel : Nat) (text : List Char), text.length ≤ fuel →
      (chunkL text n).flatten = text := by
  intro fuel
  induction fuel with
  | zero =>
    intro text hle
    have h : text = [] := List.length_eq_zero.mp (Nat.le_zero.mp hle)
    rw [h, chunkL_nil]
    rfl
  | succ k ih =>
    intro text hle
    by_cases htext : text = []
    · rw [htext, chunkL_nil]; rfl
    · rw [chunkL_cons n hn text htext, List.flatten_cons]
      have hdrop : (text.drop n).length ≤ k := by
        rw [List.length_drop]
        have : 1 ≤ text.length := List.length_pos.mpr htext
        omega
      rw [ih (text.drop n) hdrop, List.take_append_drop]

lemma chunkL_length_le (n : Nat) (text : List Char) :
    ∀ c ∈ chunkL text n, c.length ≤ n := by
  intro c hc
  unfold chunkL at hc
  rcases List.mem_map.mp hc with ⟨j, _, rfl⟩
  rw [List.length_take]
  exact min_le_left _ _

lemma string_foldl_append_data (l : List String) :
    ∀ s : String, (l.foldl (fun a b => a ++ b) s).toList
      = s.toList ++ (l.map String.toList).flatten := by
  induction l with
  | nil => intro s; simp
  | cons hd tl ih =>
    intro s
    simp only [List.foldl_cons, List.map_cons, List.flatten_cons]
    rw [ih (s ++ hd)]
    simp [String.toList]

lemma join_map_asString (L : List (List Char)) :
    String.join (L.map List.asString) = L.flatten.asString := by
  apply String.toList_inj.mp
  rw [String.join, string_foldl_append_data, List.map_map]
  have h : String.toList ∘ List.asString = id := by
    funext l
    exact List.toList_asString l
  rw [h, List.map_id]
  show L.flatten = L.flatten.asString.toList
  rw [List.toList_asString]

lemma chunk_text_length (text : String) (n : Nat) :
    (chunk_text text n).length = (text.toList.length + n - 1) / n := by
  simp [chunk_text, chunkL]

/-- C4: for every string `text` and every `chunk_size ≥ 1`,
`chunk_text text chunk_size` returns contiguous, non-overlapping,
order-preserving slices, each of length at most `chunk_size`, every chunk
except possibly the final one of length exactly `chunk_size`, and
concatenating the chunks in order reconstructs `text` exactly. -/
theorem c4_chunk_text_round_trip (text : String) (n : Nat) (hn : 1 ≤ n) :
    String.join (chunk_text text n) = text ∧
    (∀ c ∈ chunk_text text n, c.length ≤ n) ∧
    (∀ i : Nat, ∀ h : i + 1 < (chunk_text text n).length,
      ((chunk_text text n).get ⟨i, Nat.lt_of_succ_lt h⟩).length = n) := by
  refine ⟨?_, ?_, ?_⟩
  · rw [chunk_text, join_map_asString,
      chunkL_join n hn text.toList.length text.toList (le_refl _),
      String.asString_toList]
  · intro c hc
    rcases List.mem_map.mp hc with ⟨l, hl, rfl⟩
    rw [List.length_asString]
    exact chunkL_length_le n text.toList l hl
  · intro i h
    have hcnt : (chunk_text text n).length = (text.toList.length + n - 1) / n :=
      chunk_text_length text n
    have hget : (chunk_text text n).get ⟨i, Nat.lt_of_succ_lt h⟩
        = ((text.toList.drop (i * n)).take n).asString := by
      simp [chunk_text, chunkL, List.get_eq_getElem]
    rw [hget, List.length_asString, List.length_take, List.length_drop]
    have h2 : i + 2 ≤ (text.toList.length + n - 1) / n := by omega
    have h3 : (i + 2) * n ≤ text.toList.length + n - 1 :=
      (Nat.le_div_iff_mul_le (by omega : 0 < n)).mp h2
    have h4 : (i + 2) * n = i * n + 2 * n := by ring
    rw [h4] at h3
    revert h3
    generalize i * n = B
    intro h3
    omega

/-- Witness for C4 at a concrete input. -/
theorem c4_chunk_text_round_trip_witness :
    1 ≤ 2 ∧
    (String.join (chunk_text "hello" 2) = "hello" ∧
      (∀ c ∈ chunk_text "hello" 2, c.length ≤ 2) ∧
      (∀ i : Nat, ∀ h : i + 1 < (chunk_text "hello" 2).length,
        ((chunk_text "hello" 2).get ⟨i, Nat.lt_of_succ_lt h⟩).length = 2)) :=
  ⟨by decide, c4_chunk_text_round_trip "hello" 2 (by decide)⟩

/-- The external Gemini endpoint, modelled as an oracle: given the index of
the call within the session (LLM replies may differ from call to call) and
the prompt string, it returns the response text or fails; `Except.error e`
models `model.generate_content` raising an exception whose string form is
`e`. -/
abbrev LLM : Type := Nat → String → Except String String

/-- The prompt f-string built by `perform_analysis` (line 153). -/
def build_context (question chunk : String) : String :=
  "Document Content:\n\n" ++ chunk ++ "\n\nQuestion: " ++ question ++
    "\nAnswer the question based on the above document content:"

/-- Python `str.strip()`: remove leading and trailing whitespace
characters. -/
def py_strip (s : String) : String :=
  (((s.toList.dropWhile Char.isWhitespace).reverse.dropWhile
    Char.isWhitespace).reverse).asString

/-- Python `str.split("\n")`: cut the string at every newline, keeping
empty pieces (`"".split("\n") == [""]`). -/
def split_lines_chars : List Char → List (List Char)
  | [] => [[]]
  | c :: rest =>
    match split_lines_chars rest with
    | [] => [[]]
    | l :: ls => if c = Char.ofNat 10 then [] :: l :: ls else (c :: l) :: ls

/-- Embedding of `custom_question.split("\n")` on a Lean `String`. -/
def py_split_newline (s : String) : List String :=
  (split_lines_chars s.toList).map List.asString

/-- Embedding of `perform_analysis(question, chunk)` (lines 152-159), instrumented with
the session call counter `k` (each invocation issues exactly one LLM call,
so the counter advances by one): on success it returns
`response.text.strip()`, and on an exception `e` it returns the string
`"Error occurred: " ++ e`. -/
def perform_analysis (llm : LLM) (k : Nat) (question chunk : String) :
    String × Nat :=
  match llm k (build_context question chunk) with
  | Except.ok t => (py_strip t, k + 1)
  | Except.error e => ("Error occurred: " ++ e, k + 1)

/-- The inner `for chunk in chunks` loop of
`generate_answers_for_multiple_questions` (lines 174-179): scan the chunks
in order; the first chunk whose answer is truthy (a non-empty string) is
returned and the loop breaks; `none` if no chunk produced an answer. -/
def answer_for_doc (llm : LLM) (question : String) :
    List String → Nat → Option String × Nat
  | [], k => (none, k)
  | chunk :: rest, k =>
    let r := perform_analysis llm k question chunk
    if r.1 ≠ "" then (some r.1, r.2)
    else answer_for_doc llm question rest r.2

/-- Per-question answers: the Python dict `relevant_answers`, keyed by
document index.  Document indices are inserted in strictly increasing
order, so the dict is its insertion-ordered association list. -/
abbrev RelevantAnswers : Type := List (Nat × String)

/-- The result dict `all_answers`: each question maps to its per-document
answers or to `None` (`none`), in insertion order. -/
abbrev AnswerSet : Type := List (String × Option RelevantAnswers)

/-- Python `dict` assignment `m[key] = v` on a dict represented as its
insertion-ordered association list: an existing key keeps its position and
receives the new value; a new key is appended at the end. -/
def dict_set {α : Type} (m : List (String × α)) (key : String) (v : α) :
    List (String × α) :=
  if key ∈ m.map Prod.fst then
    m.map (fun p => if p.1 = key then (key, v) else p)
  else m ++ [(key, v)]

/-- Python `dict` lookup `m[key]` / `m.get(key)` as an `Option`. -/
def dict_get {κ α : Type} [DecidableEq κ] : List (κ × α) → κ → Option α
  | [], _ => none
  | p :: rest, key => if p.1 = key then some p.2 else dict_get rest key

/-- The `for doc_idx, chunks in enumerate(document_chunks)` loop of one
question (lines 170-179), from document index `d` onward, carrying the
question's `processed_docs` set, the `relevant_answers` accumulated so far
and the call counter: a document already in `processed_docs` is skipped;
otherwise its chunks are scanned, and a document that yields an answer is
recorded under its index and added to `processed_docs`. -/
def answer_docs (llm : LLM) (question : String) :
    List (List String) → Nat → List Nat → RelevantAnswers → Nat →
    RelevantAnswers × Nat
  | [], _, _, acc, k => (acc, k)
  | chunks :: rest, d, processed, acc, k =>
    if d ∈ processed then
      answer_docs llm question rest (d + 1) processed acc k
    else
      let r := answer_for_doc llm question chunks k
      match r.1 with
      | some a =>
        answer_docs llm question rest (d + 1) (d :: processed)
          (acc ++ [(d, a)]) r.2
      | none => answer_docs llm question rest (d + 1) processed acc r.2

/-- The outer `for question in questions` loop (lines 164-182), with
`all_answers[question] = relevant_answers if relevant_answers else None`:
an empty per-document dict is falsy, so it is replaced by `None`. -/
def answer_questions (llm : LLM) (document_chunks : List (List String)) :
    List String → AnswerSet → Nat → AnswerSet × Nat
  | [], acc, k => (acc, k)
  | q :: qs, acc, k =>
    let r := answer_docs llm q document_chunks 0 [] [] k
    let v : Option RelevantAnswers := if r.1 = [] then none else some r.1
    answer_questions llm document_chunks qs (dict_set acc q v) r.2

/-- Embedding of `generate_answers_for_multiple_questions(questions, document_chunks,
uploaded_files)` (lines 162-184); the `uploaded_files` parameter is unused
by the function body and omitted.  Also returns the number of LLM calls
issued. -/
def generate_answers_for_multiple_questions (llm : LLM)
    (questions : List String) (document_chunks : List (List String)) :
    AnswerSet × Nat :=
  answer_questions llm document_chunks questions [] 0

/-- Embedding of line 54:
`[q.strip() for q in custom_question.split("\n") if q.strip()]`. -/
def split_questions (custom_question : String) : List String :=
  ((py_split_newline custom_question).filter (fun q => py_strip q ≠ "")).map
    py_strip

/-- What a click on either generate button produces (lines 52-64): a
user-visible warning, or the answer set (with the number of LLM calls the
run issued). -/
inductive ClickOutcome : Type
  | warning : ClickOutcome
  | answers : AnswerSet → Nat → ClickOutcome
deriving DecidableEq

/-- Lines 52-64 of `main`: `if custom_question:` (Python truthiness of a
string is non-emptiness) parses the questions and runs the orchestrator;
the falsy branch shows `st.warning("Please enter a question.")`. -/
def handle_generate_click (llm : LLM) (custom_question : String)
    (document_chunks : List (List String)) : ClickOutcome :=
  if custom_question ≠ "" then
    let r := generate_answers_for_multiple_questions llm
      (split_questions custom_question) document_chunks
    ClickOutcome.answers r.1 r.2
  else ClickOutcome.warning

/-- An embedded PDF image: the outcome of the
`extract_image`/`Image.open`/`pytesseract.image_to_string` pipeline on it
(lines 108-112); `Except.error e` models any of those raising. -/
structure PDFImage where
  ocr : Except String String

/-- A PDF page: the outcome of `load_page` + `get_text` (lines 99-100) and
of `get_images` (line 105). -/
structure PDFPage where
  loadText : Except String String
  getImages : Except String (List PDFImage)

/-- An uploaded PDF blob: the outcome of `fitz.open(stream=..., ...)`
(line 93) — a call made outside every `try` block. -/
structure PDFDoc where
  fitzOpen : Except String (List PDFPage)

/-- The inner `for img in images` loop (lines 106-116): OCR text is
appended to `pdf_text` and to the page-labelled `extracted_text`; a
problematic image is skipped (`except Exception: continue`). -/
def image_loop (page_num : Nat) :
    List PDFImage → String → String → String × String
  | [], pdf_text, extracted_text => (pdf_text, extracted_text)
  | img :: rest, pdf_text, extracted_text =>
    match img.ocr with
    | Except.error _ => image_loop page_num rest pdf_text extracted_text
    | Except.ok t =>
      image_loop page_num rest (pdf_text ++ t)
        (extracted_text ++ "Image OCR (Page " ++ toString (page_num + 1)
          ++ "):\n" ++ t ++ "\n\n")

/-- The `for page_num in range(len(doc))` loop (lines 97-118).  A page
whose `load_page`/`get_text` raises is skipped whole; if `get_images`
raises, the page's text has already been appended and the outer `except`
then moves to the next page. -/
def page_loop : List PDFPage → Nat → String → String → String × String
  | [], _, pdf_text, extracted_text => (pdf_text, extracted_text)
  | page :: rest, page_num, pdf_text, extracted_text =>
    match page.loadText with
    | Except.error _ => page_loop rest (page_num + 1) pdf_text extracted_text
    | Except.ok t =>
      let pdf_text2 := pdf_text ++ t
      let extracted2 := extracted_text ++ "Page " ++ toString (page_num + 1)
        ++ ":\n" ++ t ++ "\n\n"
      match page.getImages with
      | Except.error _ => page_loop rest (page_num + 1) pdf_text2 extracted2
      | Except.ok imgs =>
        let r := image_loop page_num imgs pdf_text2 extracted2
        page_loop rest (page_num + 1) r.1 r.2

/-- Embedding of `extract_pdf_text(uploaded_file, chunk_size=5000)` (lines 92-120):
`fitz.open` is outside every `try`, so its failure propagates
(`Except.error`); otherwise the page loop runs and the chunked text is
returned together with the display text. -/
def extract_pdf_text (doc : PDFDoc) (chunk_size : Nat) :
    Except String (List String × String) :=
  match doc.fitzOpen with
  | Except.error e => Except.error e
  | Except.ok pages =>
    let r := page_loop pages 0 "" ""
    Except.ok (chunk_text r.1 chunk_size, r.2)

/-- An uploaded Word blob: the outcome of `docx.Document(uploaded_file)`
(line 124), yielding the paragraph texts on success. -/
structure DocxDoc where
  openDoc : Except String (List String)

/-- Embedding of `extract_docx_text(uploaded_file, chunk_size=5000)` (lines 123-126):
no `try` anywhere, so an open failure propagates; otherwise
`"".join(para.text + "\n" for para in doc.paragraphs)` is chunked. -/
def extract_docx_text (d : DocxDoc) (chunk_size : Nat) :
    Except String (List String × String) :=
  match d.openDoc with
  | Except.error e => Except.error e
  | Except.ok paras =>
    let doc_text := String.join (paras.map (fun p => p ++ "\n"))
    Except.ok (chunk_text doc_text chunk_size, doc_text)

/-- Spec-side description of the per-question scan (the spec's words, for
comparison with the code's `answer_docs`): for each document in upload
order, the first chunk whose generated answer is non-empty contributes
`(document index, answer)`; a document none of whose chunks produces a
non-empty answer is absent.  `gen` gives the answer a chunk produces. -/
def spec_first_answer_scan (gen : String → String)
    (document_chunks : List (List String)) : RelevantAnswers :=
  document_chunks.enum.filterMap
    (fun p => ((p.2.map gen).find? (fun a => a != "")).map (fun a => (p.1, a)))

/-- The indices of documents that have at least one chunk. -/
def content_doc_idxs (document_chunks : List (List String)) : List Nat :=
  document_chunks.enum.filterMap
    (fun p => if p.2 = [] then none else some p.1)

/-- The key sequence a Python dict accumulates when the given keys are
assigned in order: first-occurrence order, duplicates collapsed. -/
def dedup_keys (l : List String) : List String :=
  l.foldl (fun ks q => if q ∈ ks then ks else ks ++ [q]) []

lemma dict_set_map_fst {α : Type} (m : List (String × α)) (key : String)
    (v : α) :
    (dict_set m key v).map Prod.fst
      = if key ∈ m.map Prod.fst then m.map Prod.fst
        else m.map Prod.fst ++ [key] := by
  unfold dict_set
  by_cases h : key ∈ m.map Prod.fst
  · rw [if_pos h, if_pos h, List.map_map]
    apply List.map_congr_left
    intro p hp
    by_cases hpk : p.1 = key
    · simp [hpk]
    · simp [hpk]
  · rw [if_neg h, if_neg h, List.map_append]
    rfl

lemma dict_get_map_set_self {α : Type} (key : String) (v : α) :
    ∀ m : List (String × α), key ∈ m.map Prod.fst →
      dict_get (m.map (fun p => if p.1 = key then (key, v) else p)) key
        = some v := by
  intro m
  induction m with
  | nil => intro h; simp at h
  | cons hd tl ih =>
    intro h
    by_cases hh : hd.1 = key
    · simp [dict_get, hh]
    · have htl : key ∈ tl.map Prod.fst := by
        rcases List.mem_map.mp h with ⟨p, hp, rfl⟩
        rcases List.mem_cons.mp hp with rfl | hp2
        · exact absurd rfl hh
        · exact List.mem_map.mpr ⟨p, hp2, rfl⟩
      simp only [List.map_cons, if_neg hh]
      rw [dict_get, if_neg hh]
      exact ih htl

lemma dict_get_append_self {α : Type} (key : String) (v : α) :
    ∀ m : List (String × α), key ∉ m.map Prod.fst →
      dict_get (m ++ [(key, v)]) key = some v := by
  intro m
  induction m with
  | nil => intro _; simp [dict_get]
  | cons hd tl ih =>
    intro h
    have hh : hd.1 ≠ key := by
      intro he
      exact h (List.mem_map.mpr ⟨hd, List.mem_cons_self _ _, he⟩)
    have htl : key ∉ tl.map Prod.fst := by
      intro ht
      exact h (List.mem_cons_of_mem _ ht)
    rw [List.cons_append, dict_get, if_neg hh]
    exact ih htl

lemma dict_get_set_self {α : Type} (m : List (String × α)) (key : String)
    (v : α) : dict_get (dict_set m key v) key = some v := by
  unfold dict_set
  by_cases h : key ∈ m.map Prod.fst
  · rw [if_pos h]
    exact dict_get_map_set_self key v m h
  · rw [if_neg h]
    exact dict_get_append_self key v m h

lemma dict_get_set_other {α : Type} (m : List (String × α))
    (key key2 : String) (v : α) (h : key2 ≠ key) :
    dict_get (dict_set m key v) key2 = dict_get m key2 := by
  unfold dict_set
  by_cases hmem : key ∈ m.map Prod.fst
  · rw [if_pos hmem]
    clear hmem
    induction m with
    | nil => rfl
    | cons hd tl ih =>
      by_cases hh : hd.1 = key
      · have h1 : ((key, v) : String × α).1 ≠ key2 := fun he => h (he.symm)
        have h2 : hd.1 ≠ key2 := by
          rw [hh]
          exact fun he => h he.symm
        simp only [List.map_cons, if_pos hh]
        rw [dict_get, if_neg h1, dict_get, if_neg h2]
        exact ih
      · simp only [List.map_cons, if_neg hh]
        by_cases hk2 : hd.1 = key2
        · rw [dict_get, if_pos hk2, dict_get, if_pos hk2]
        · rw [dict_get, if_neg hk2, dict_get, if_neg hk2]
          exact ih
  · rw [if_neg hmem]
    clear hmem
    induction m with
    | nil =>
      have h1 : key ≠ key2 := fun he => h he.symm
      simp only [List.nil_append]
      simp [dict_get, h1]
    | cons hd tl ih =>
      rw [List.cons_append]
      by_cases hk2 : hd.1 = key2
      · rw [dict_get, if_pos hk2, dict_get, if_pos hk2]
      · rw [dict_get, if_neg hk2, dict_get, if_neg hk2]
        exact ih

lemma mem_dict_set {α : Type} (m : List (String × α)) (key : String) (v : α)
    (p : String × α) (hp : p ∈ dict_set m key v) : p ∈ m ∨ p = (key, v) := by
  unfold dict_set at hp
  by_cases h : key ∈ m.map Prod.fst
  · rw [if_pos h] at hp
    rcases List.mem_map.mp hp with ⟨q, hq, rfl⟩
    by_cases hqk : q.1 = key
    · rw [if_pos hqk]; right; rfl
    · rw [if_neg hqk]; left; exact hq
  · rw [if_neg h] at hp
    rcases List.mem_append.mp hp with h1 | h1
    · exact Or.inl h1
    · right
      simpa using h1

lemma dict_get_mem {κ α : Type} [DecidableEq κ] :
    ∀ (m : List (κ × α)) (key : κ) (v : α),
      dict_get m key = some v → (key, v) ∈ m := by
  intro m
  induction m with
  | nil => intro key v h; simp [dict_get] at h
  | cons hd tl ih =>
    intro key v h
    rw [dict_get] at h
    by_cases hh : hd.1 = key
    · rw [if_pos hh] at h
      have hv : hd.2 = v := by simpa using h
      have he : (key, v) = hd := by rw [← hh, ← hv]
      rw [he]
      exact List.mem_cons_self _ _
    · rw [if_neg hh] at h
      exact List.mem_cons_of_mem _ (ih key v h)

lemma dict_get_exists_of_mem_fst {κ α : Type} [DecidableEq κ] :
    ∀ (m : List (κ × α)) (key : κ), key ∈ m.map Prod.fst →
      ∃ v, dict_get m key = some v := by
  intro m
  induction m with
  | nil => intro key h; simp at h
  | cons hd tl ih =>
    intro key h
    by_cases hh : hd.1 = key
    · exact ⟨hd.2, by rw [dict_get, if_pos hh]⟩
    · have htl : key ∈ tl.map Prod.fst := by
        rcases List.mem_map.mp h with ⟨p, hp, rfl⟩
        rcases List.mem_cons.mp hp with rfl | hp2
        · exact absurd rfl hh
        · exact List.mem_map.mpr ⟨p, hp2, rfl⟩
      rcases ih key htl with ⟨v, hv⟩
      exact ⟨v, by rw [dict_get, if_neg hh]; exact hv⟩

lemma answer_for_doc_nil (llm : LLM) (q : String) (k : Nat) :
    answer_for_doc llm q [] k = (none, k) := rfl

lemma answer_for_doc_cons (llm : LLM) (q c : String) (rest : List String)
    (k : Nat) :
    answer_for_doc llm q (c :: rest) k
      = if (perform_analysis llm k q c).1 ≠ ""
        then (some (perform_analysis llm k q c).1,
              (perform_analysis llm k q c).2)
        else answer_for_doc llm q rest (perform_analysis llm k q c).2 := by
  simp only [answer_for_doc]

lemma answer_docs_nil (llm : LLM) (q : String) (d : Nat) (proc : List Nat)
    (acc : RelevantAnswers) (k : Nat) :
    answer_docs llm q [] d proc acc k = (acc, k) := rfl

lemma answer_docs_cons_skip (llm : LLM) (q : String) (chunks : List String)
    (rest : List (List String)) (d : Nat) (proc : List Nat)
    (acc : RelevantAnswers) (k : Nat) (hd : d ∈ proc) :
    answer_docs llm q (chunks :: rest) d proc acc k
      = answer_docs llm q rest (d + 1) proc acc k := by
  simp only [answer_docs, if_pos hd]

lemma answer_docs_cons_some (llm : LLM) (q : String) (chunks : List String)
    (rest : List (List String)) (d : Nat) (proc : List Nat)
    (acc : RelevantAnswers) (k : Nat) (a : String) (k2 : Nat)
    (hd : d ∉ proc) (hA : answer_for_doc llm q chunks k = (some a, k2)) :
    answer_docs llm q (chunks :: rest) d proc acc k
      = answer_docs llm q rest (d + 1) (d :: proc) (acc ++ [(d, a)]) k2 := by
  simp only [answer_docs, if_neg hd, hA]

lemma answer_docs_cons_none (llm : LLM) (q : String) (chunks : List String)
    (rest : List (List String)) (d : Nat) (proc : List Nat)
    (acc : RelevantAnswers) (k : Nat) (k2 : Nat)
    (hd : d ∉ proc) (hA : answer_for_doc llm q chunks k = (none, k2)) :
    answer_docs llm q (chunks :: rest) d proc acc k
      = answer_docs llm q rest (d + 1) proc acc k2 := by
  simp only [answer_docs, if_neg hd, hA]

lemma answer_questions_nil (llm : LLM) (dc : List (List String))
    (acc : AnswerSet) (k : Nat) :
    answer_questions llm dc [] acc k = (acc, k) := rfl

lemma answer_questions_cons (llm : LLM) (dc : List (List String))
    (q : String) (qs : List String) (acc : AnswerSet) (k : Nat) :
    answer_questions llm dc (q :: qs) acc k
      = answer_questions llm dc qs
          (dict_set acc q
            (if (answer_docs llm q dc 0 [] [] k).1 = [] then none
             else some (answer_docs llm q dc 0 [] [] k).1))
          (answer_docs llm q dc 0 [] [] k).2 := by
  simp only [answer_questions]

lemma answer_questions_values (llm : LLM) (dc : List (List String))
    (P : Option RelevantAnswers → Prop)
    (hins : ∀ (q : String) (k : Nat),
      P (if (answer_docs llm q dc 0 [] [] k).1 = [] then none
         else some (answer_docs llm q dc 0 [] [] k).1)) :
    ∀ (qs : List String) (acc : AnswerSet) (k : Nat),
      (∀ p ∈ acc, P p.2) →
      ∀ p ∈ (answer_questions llm dc qs acc k).1, P p.2 := by
  intro qs
  induction qs with
  | nil =>
    intro acc k hacc p hp
    exact hacc p hp
  | cons q qs ih =>
    intro acc k hacc p hp
    rw [answer_questions_cons] at hp
    refine ih _ _ ?_ p hp
    intro p2 hp2
    rcases mem_dict_set _ _ _ _ hp2 with h1 | h1
    · exact hacc p2 h1
    · rw [h1]
      exact hins q k

lemma answer_questions_map_fst (llm : LLM) (dc : List (List String)) :
    ∀ (qs : List String) (acc : AnswerSet) (k : Nat),
      ((answer_questions llm dc qs acc k).1).map Prod.fst
        = qs.foldl (fun ks q => if q ∈ ks then ks else ks ++ [q])
            (acc.map Prod.fst) := by
  intro qs
  induction qs with
  | nil => intro acc k; rfl
  | cons q qs ih =>
    intro acc k
    rw [answer_questions_cons, List.foldl_cons, ih]
    congr 1
    exact dict_set_map_fst acc q _

lemma answer_questions_get_not_mem (llm : LLM) (dc : List (List String)) :
    ∀ (qs : List String) (acc : AnswerSet) (k : Nat) (q : String), q ∉ qs →
      dict_get (answer_questions llm dc qs acc k).1 q = dict_get acc q := by
  intro qs
  induction qs with
  | nil => intro acc k q _; rfl
  | cons q2 qs ih =>
    intro acc k q hq
    have h1 : q ≠ q2 := fun he => hq (he ▸ List.mem_cons_self _ _)
    have h2 : q ∉ qs := fun ht => hq (List.mem_cons_of_mem _ ht)
    rw [answer_questions_cons, ih _ _ q h2, dict_get_set_other _ _ _ _ h1]

lemma mem_foldl_dedup :
    ∀ (l acc : List String) (x : String),
      x ∈ l.foldl (fun ks q => if q ∈ ks then ks else ks ++ [q]) acc
        ↔ x ∈ acc ∨ x ∈ l := by
  intro l
  induction l with
  | nil => intro acc x; simp
  | cons q l ih =>
    intro acc x
    rw [List.foldl_cons, ih]
    by_cases hq : q ∈ acc
    · rw [if_pos hq]
      constructor
      · rintro (h | h)
        · exact Or.inl h
        · exact Or.inr (List.mem_cons_of_mem _ h)
      · rintro (h | h)
        · exact Or.inl h
        · rcases List.mem_cons.mp h with rfl | h2
          · exact Or.inl hq
          · exact Or.inr h2
    · rw [if_neg hq]
      simp only [List.mem_append, List.mem_cons]
      constructor
      · rintro ((h | h) | h)
        · exact Or.inl h
        · exact Or.inr (Or.inl (by simpa using h))
        · exact Or.inr (Or.inr h)
      · rintro (h | h | h)
        · exact Or.inl (Or.inl h)
        · exact Or.inl (Or.inr (by simpa using h))
        · exact Or.inr h

lemma mem_dedup_keys (l : List String) (x : String) :
    x ∈ dedup_keys l ↔ x ∈ l := by
  unfold dedup_keys
  rw [mem_foldl_dedup]
  simp

lemma foldl_dedup_nodup :
    ∀ (l acc : List String), l.Nodup → (∀ x ∈ l, x ∉ acc) →
      l.foldl (fun ks q => if q ∈ ks then ks else ks ++ [q]) acc
        = acc ++ l := by
  intro l
  induction l with
  | nil => intro acc _ _; simp
  | cons q l ih =>
    intro acc hnd hdisj
    have hdisj2 : ∀ x ∈ l, x ∉ acc ++ [q] := by
      intro x hx hmem
      rcases List.mem_append.mp hmem with h1 | h1
      · exact hdisj x (List.mem_cons_of_mem _ hx) h1
      · have hxq : x = q := by simpa using h1
        rw [List.nodup_cons] at hnd
        exact hnd.1 (hxq ▸ hx)
    rw [List.foldl_cons, if_neg (hdisj q (List.mem_cons_self _ _)),
      ih (acc ++ [q]) (by rw [List.nodup_cons] at hnd; exact hnd.2) hdisj2]
    simp

lemma dedup_keys_eq_self (l : List String) (h : l.Nodup) :
    dedup_keys l = l := by
  unfold dedup_keys
  rw [foldl_dedup_nodup l [] h (fun x _ hx => List.not_mem_nil x hx)]
  rfl

lemma answer_for_doc_nil_of_some (llm : LLM) (q : String)
    (chunks : List String) (k k2 : Nat) (a : String)
    (hA : answer_for_doc llm q chunks k = (some a, k2)) : chunks ≠ [] := by
  intro he
  rw [he, answer_for_doc_nil] at hA
  simp at hA

lemma answer_docs_mem (llm : LLM) (q : String) :
    ∀ (dc : List (List String)) (d : Nat) (proc : List Nat)
      (acc : RelevantAnswers) (k : Nat),
      ∀ p ∈ (answer_docs llm q dc d proc acc k).1,
        p ∈ acc ∨ ∃ cs, (p.1, cs) ∈ List.enumFrom d dc ∧ cs ≠ [] := by
  intro dc
  induction dc with
  | nil => intro d proc acc k p hp; exact Or.inl hp
  | cons chunks rest ih =>
    intro d proc acc k p hp
    by_cases hd : d ∈ proc
    · rw [answer_docs_cons_skip llm q chunks rest d proc acc k hd] at hp
      rcases ih (d + 1) proc acc k p hp with h | ⟨cs, hcs, hne⟩
      · exact Or.inl h
      · exact Or.inr ⟨cs, by
          rw [List.enumFrom_cons]
          exact List.mem_cons_of_mem _ hcs, hne⟩
    · rcases hA : answer_for_doc llm q chunks k with ⟨o, k2⟩
      cases o with
      | some a =>
        rw [answer_docs_cons_some llm q chunks rest d proc acc k a k2 hd hA]
          at hp
        rcases ih (d + 1) (d :: proc) (acc ++ [(d, a)]) k2 p hp
          with h | ⟨cs, hcs, hne⟩
        · rcases List.mem_append.mp h with h1 | h1
          · exact Or.inl h1
          · have hpe : p = (d, a) := by simpa using h1
            subst hpe
            refine Or.inr ⟨chunks, ?_,
              answer_for_doc_nil_of_some llm q chunks k k2 a hA⟩
            rw [List.enumFrom_cons]
            exact List.mem_cons_self _ _
        · exact Or.inr ⟨cs, by
            rw [List.enumFrom_cons]
            exact List.mem_cons_of_mem _ hcs, hne⟩
      | none =>
        rw [answer_docs_cons_none llm q chunks rest d proc acc k k2 hd hA]
          at hp
        rcases ih (d + 1) proc acc k2 p hp with h | ⟨cs, hcs, hne⟩
        · exact Or.inl h
        · exact Or.inr ⟨cs, by
            rw [List.enumFrom_cons]
            exact List.mem_cons_of_mem _ hcs, hne⟩

lemma generate_map_fst (llm : LLM) (qs : List String)
    (dc : List (List String)) :
    ((generate_answers_for_multiple_questions llm qs dc).1).map Prod.fst
      = dedup_keys qs := by
  unfold generate_answers_for_multiple_questions
  rw [answer_questions_map_fst]
  rfl

/-- C2: in the returned `all_answers`, every question maps either to a
non-empty per-document mapping or to the explicit `None` marker — never to
an empty mapping; and every submitted question has an entry. -/
theorem c2_no_empty_mapping (llm : LLM) (qs : List String)
    (dc : List (List String)) :
    (∀ p ∈ (generate_answers_for_multiple_questions llm qs dc).1,
      p.2 ≠ some []) ∧
    (∀ q ∈ qs, ∃ v,
      dict_get (generate_answers_for_multiple_questions llm qs dc).1 q
        = some v ∧ v ≠ some []) := by
  have hvals : ∀ p ∈ (generate_answers_for_multiple_questions llm qs dc).1,
      p.2 ≠ some [] := by
    intro p hp
    refine answer_questions_values llm dc (fun v => v ≠ some []) ?_ qs [] 0
      ?_ p hp
    · intro q k
      by_cases h : (answer_docs llm q dc 0 [] [] k).1 = []
      · rw [if_pos h]; simp
      · rw [if_neg h]; simpa using h
    · intro p2 hp2; simp at hp2
  refine ⟨hvals, ?_⟩
  intro q hq
  have hqmem : q ∈ ((generate_answers_for_multiple_questions llm qs
      dc).1).map Prod.fst := by
    rw [generate_map_fst, mem_dedup_keys]
    exact hq
  rcases dict_get_exists_of_mem_fst _ q hqmem with ⟨v, hv⟩
  refine ⟨v, hv, ?_⟩
  exact hvals (q, v) (dict_get_mem _ q v hv)

/-- Witness for C2 at a concrete input. -/
theorem c2_no_empty_mapping_witness :
    ∃ v, dict_get (generate_answers_for_multiple_questions
        (fun _ _ => Except.error "down") ["q1"] []).1 "q1"
      = some v ∧ v ≠ some [] :=
  (c2_no_empty_mapping (fun _ _ => Except.error "down") ["q1"] []).2 "q1"
    (by decide)

/-- C10 fails as stated: with the duplicate question list `["q1", "q1"]`
the Python dict collapses the two assignments into one entry, so the
result's keys are `["q1"]`, not one entry per input question. -/
theorem c10_counterexample :
    ((generate_answers_for_multiple_questions (fun _ _ => Except.error "down")
        ["q1", "q1"] []).1).map Prod.fst = ["q1"] ∧
    ["q1"] ≠ ["q1", "q1"] := by
  constructor
  · decide
  · decide

/-- C10 amended: the keys of the returned mapping are exactly the input
questions with duplicates collapsed to their first occurrence (so exactly
the input questions, in input order, whenever the questions are pairwise
distinct), and every key of an inner per-document mapping is a document
index strictly below the number of documents. -/
theorem c10_amended_keys_and_indices (llm : LLM) (qs : List String)
    (dc : List (List String)) :
    ((generate_answers_for_multiple_questions llm qs dc).1).map Prod.fst
        = dedup_keys qs ∧
    (qs.Nodup →
      ((generate_answers_for_multiple_questions llm qs dc).1).map Prod.fst
        = qs) ∧
    (∀ p ∈ (generate_answers_for_multiple_questions llm qs dc).1,
      ∀ l, p.2 = some l → ∀ pr ∈ l, pr.1 < dc.length) := by
  refine ⟨generate_map_fst llm qs dc, ?_, ?_⟩
  · intro hnd
    rw [generate_map_fst llm qs dc, dedup_keys_eq_self qs hnd]
  · intro p hp
    refine answer_questions_values llm dc
      (fun v => ∀ l, v = some l → ∀ pr ∈ l, pr.1 < dc.length) ?_ qs [] 0
      ?_ p hp
    · intro q k l hl pr hpr
      by_cases h : (answer_docs llm q dc 0 [] [] k).1 = []
      · rw [if_pos h] at hl; simp at hl
      · rw [if_neg h] at hl
        have hl2 : (answer_docs llm q dc 0 [] [] k).1 = l :=
          Option.some_injective _ hl
        rcases answer_docs_mem llm q dc 0 [] [] k pr (hl2 ▸ hpr)
          with h1 | ⟨cs, hcs, _⟩
        · simp at h1
        · have h2 := List.mk_mem_enumFrom_iff_le_and_getElem?_sub.mp hcs
          rcases List.getElem?_eq_some_iff.mp h2.2 with ⟨hlt, _⟩
          exact hlt
    · intro p2 hp2; simp at hp2

/-- Witness for C10's amended theorem at a concrete input. -/
theorem c10_amended_keys_and_indices_witness :
    (["q1", "q2"] : List String).Nodup ∧
    ((generate_answers_for_multiple_questions
        (fun _ _ => Except.error "down") ["q1", "q2"] [["c"]]).1).map
          Prod.fst = ["q1", "q2"] :=
  ⟨by decide,
    (c10_amended_keys_and_indices (fun _ _ => Except.error "down")
      ["q1", "q2"] [["c"]]).2.1 (by decide)⟩

/-- C7: a document whose extracted text is empty produces zero chunks
(`chunk_text "" n = []`), its (empty) chunk scan issues no LLM call and
yields no answer, the document is passed over without any call, and its
index is absent from every question's per-document answer mapping. -/
theorem c7_empty_text_absent :
    (∀ n : Nat, chunk_text "" n = []) ∧
    (∀ (llm : LLM) (q : String) (k : Nat),
      answer_for_doc llm q [] k = (none, k)) ∧
    (∀ (llm : LLM) (q : String) (rest : List (List String)) (d : Nat)
      (proc : List Nat) (acc : RelevantAnswers) (k : Nat), d ∉ proc →
      answer_docs llm q ([] :: rest) d proc acc k
        = answer_docs llm q rest (d + 1) proc acc k) ∧
    (∀ (llm : LLM) (qs : List String) (dc : List (List String)) (d : Nat),
      dc[d]? = some [] →
      ∀ p ∈ (generate_answers_for_multiple_questions llm qs dc).1,
        ∀ l, p.2 = some l → dict_get l d = none) := by
  refine ⟨?_, ?_, ?_, ?_⟩
  · intro n
    unfold chunk_text
    rw [show ("" : String).toList = [] from rfl, chunkL_nil]
    rfl
  · intro llm q k
    rfl
  · intro llm q rest d proc acc k hd
    exact answer_docs_cons_none llm q [] rest d proc acc k k hd rfl
  · intro llm qs dc d hdc p hp l hl
    cases hdg : dict_get l d with
    | none => rfl
    | some a =>
      exfalso
      have hmem : (d, a) ∈ l := dict_get_mem _ d a hdg
      have hP : ∀ p2 ∈ (generate_answers_for_multiple_questions llm qs
          dc).1, ∀ l2, p2.2 = some l2 → (d, a) ∈ l2 → False := by
        intro p2 hp2
        refine answer_questions_values llm dc
          (fun v => ∀ l2, v = some l2 → (d, a) ∈ l2 → False) ?_ qs [] 0
          ?_ p2 hp2
        · intro q2 k l2 hl2 hmem2
          by_cases h : (answer_docs llm q2 dc 0 [] [] k).1 = []
          · rw [if_pos h] at hl2; simp at hl2
          · rw [if_neg h] at hl2
            have hl3 : (answer_docs llm q2 dc 0 [] [] k).1 = l2 :=
              Option.some_injective _ hl2
            rcases answer_docs_mem llm q2 dc 0 [] [] k (d, a)
              (hl3 ▸ hmem2) with h1 | ⟨cs, hcs, hne⟩
            · simp at h1
            · have h2 := List.mk_mem_enumFrom_iff_le_and_getElem?_sub.mp hcs
              have h3 : dc[d]? = some cs := by simpa using h2.2
              rw [hdc] at h3
              exact hne (Option.some_injective _ h3).symm
        · intro p3 hp3; simp at hp3
      exact hP p hp l hl hmem

/-- Witness for C7 at a concrete input: document 0 has no chunks and is
absent from the question's mapping; document 1 answers. -/
theorem c7_empty_text_absent_witness :
    dict_get [(1, "Error occurred: x")] 0 = none :=
  c7_empty_text_absent.2.2.2 (fun _ _ => Except.error "x") ["q"]
    [[], ["c"]] 0 (by decide) ("q", some [(1, "Error occurred: x")])
    (by decide) [(1, "Error occurred: x")] rfl

lemma error_string_ne_empty (e : String) : "Error occurred: " ++ e ≠ "" := by
  intro h
  have h2 := congrArg String.toList h
  rw [show ("Error occurred: " ++ e).toList
      = "Error occurred: ".toList ++ e.toList from rfl] at h2
  simp at h2

/-- C5: `perform_analysis` either returns the LLM response stripped of
surrounding whitespace, or, on any failure `e` of the call, the string
`"Error occurred: " ++ e` instead of propagating; each invocation issues
exactly one LLM call (no retry: the call counter advances by exactly
one). -/
theorem c5_perform_analysis_contract (llm : LLM) (k : Nat)
    (question chunk : String) :
    (∀ t, llm k (build_context question chunk) = Except.ok t →
      perform_analysis llm k question chunk = (py_strip t, k + 1)) ∧
    (∀ e, llm k (build_context question chunk) = Except.error e →
      perform_analysis llm k question chunk
        = ("Error occurred: " ++ e, k + 1)) ∧
    (perform_analysis llm k question chunk).2 = k + 1 := by
  refine ⟨?_, ?_, ?_⟩
  · intro t ht
    unfold perform_analysis
    rw [ht]
  · intro e he
    unfold perform_analysis
    rw [he]
  · unfold perform_analysis
    cases llm k (build_context question chunk) <;> rfl

/-- Witness for C5 at a concrete input. -/
theorem c5_perform_analysis_contract_witness :
    perform_analysis (fun _ _ => Except.error "boom") 0 "q" "c"
      = ("Error occurred: boom", 1) :=
  (c5_perform_analysis_contract (fun _ _ => Except.error "boom") 0 "q"
    "c").2.1 "boom" rfl

/-- C9: when the LLM call on a chunk fails with `e`, the returned string
`"Error occurred: " ++ e` is non-empty, so the chunk scan stops there with
that string as the document's answer after exactly one call; the remaining
chunks are never consulted (the scan's result does not depend on them);
and at the document level the error string is recorded under the
document's index, the document is marked processed, and the loop moves to
the next document. -/
theorem c9_error_is_an_answer (llm : LLM) (k : Nat) (q c : String)
    (cs : List String) (e : String)
    (he : llm k (build_context q c) = Except.error e) :
    ("Error occurred: " ++ e ≠ "") ∧
    answer_for_doc llm q (c :: cs) k
      = (some ("Error occurred: " ++ e), k + 1) ∧
    (∀ cs2 : List String,
      answer_for_doc llm q (c :: cs2) k
        = answer_for_doc llm q (c :: cs) k) ∧
    (∀ (rest : List (List String)) (d : Nat) (proc : List Nat)
      (acc : RelevantAnswers), d ∉ proc →
      answer_docs llm q ((c :: cs) :: rest) d proc acc k
        = answer_docs llm q rest (d + 1) (d :: proc)
            (acc ++ [(d, "Error occurred: " ++ e)]) (k + 1)) := by
  have hpa : perform_analysis llm k q c = ("Error occurred: " ++ e, k + 1) := by
    unfold perform_analysis
    rw [he]
  have hscan : ∀ cs2 : List String, answer_for_doc llm q (c :: cs2) k
      = (some ("Error occurred: " ++ e), k + 1) := by
    intro cs2
    rw [answer_for_doc_cons, hpa]
    simp [error_string_ne_empty e]
  refine ⟨error_string_ne_empty e, hscan cs, fun cs2 => by rw [hscan, hscan],
    ?_⟩
  intro rest d proc acc hd
  exact answer_docs_cons_some llm q (c :: cs) rest d proc acc k
    ("Error occurred: " ++ e) (k + 1) hd (hscan cs)

/-- Witness for C9 at a concrete input. -/
theorem c9_error_is_an_answer_witness :
    answer_for_doc (fun _ _ => Except.error "t/o") "q" ["c1", "c2"] 0
      = (some ("Error occurred: t/o"), 1) :=
  (c9_error_is_an_answer (fun _ _ => Except.error "t/o") 0 "q" "c1" ["c2"]
    "t/o" rfl).2.1

lemma answer_for_doc_fail (llm : LLM)
    (hfail : ∀ i s, ∃ e, llm i s = Except.error e) (q c : String)
    (cs : List String) (k : Nat) :
    ∃ e, answer_for_doc llm q (c :: cs) k
      = (some ("Error occurred: " ++ e), k + 1) := by
  rcases hfail k (build_context q c) with ⟨e, he⟩
  refine ⟨e, ?_⟩
  have hpa : perform_analysis llm k q c = ("Error occurred: " ++ e, k + 1) := by
    unfold perform_analysis
    rw [he]
  rw [answer_for_doc_cons, hpa]
  simp [error_string_ne_empty e]

lemma answer_docs_fail (llm : LLM)
    (hfail : ∀ i s, ∃ e, llm i s = Except.error e) (q : String) :
    ∀ (dc : List (List String)) (d : Nat) (proc : List Nat)
      (acc : RelevantAnswers) (k : Nat), (∀ x ∈ proc, x < d) →
      (((answer_docs llm q dc d proc acc k).1).map Prod.fst
          = acc.map Prod.fst ++ (List.enumFrom d dc).filterMap
              (fun p => if p.2 = [] then none else some p.1)) ∧
      (∀ p ∈ (answer_docs llm q dc d proc acc k).1,
        p ∈ acc ∨ ∃ e, p.2 = "Error occurred: " ++ e) := by
  intro dc
  induction dc with
  | nil =>
    intro d proc acc k hproc
    exact ⟨by simp [answer_docs_nil], fun p hp => Or.inl hp⟩
  | cons chunks rest ih =>
    intro d proc acc k hproc
    have hd : d ∉ proc := fun hmem => absurd (hproc d hmem) (lt_irrefl d)
    cases chunks with
    | nil =>
      rw [answer_docs_cons_none llm q [] rest d proc acc k k hd rfl]
      have hproc2 : ∀ x ∈ proc, x < d + 1 :=
        fun x hx => Nat.lt_succ_of_lt (hproc x hx)
      rcases ih (d + 1) proc acc k hproc2 with ⟨h1, h2⟩
      refine ⟨?_, h2⟩
      rw [h1, List.enumFrom_cons, List.filterMap_cons]
      simp
    | cons c cs =>
      rcases answer_for_doc_fail llm hfail q c cs k with ⟨e, hA⟩
      rw [answer_docs_cons_some llm q (c :: cs) rest d proc acc k
        ("Error occurred: " ++ e) (k + 1) hd hA]
      have hproc2 : ∀ x ∈ d :: proc, x < d + 1 := by
        intro x hx
        rcases List.mem_cons.mp hx with rfl | h
        · exact Nat.lt_succ_self _
        · exact Nat.lt_succ_of_lt (hproc x h)
      rcases ih (d + 1) (d :: proc)
        (acc ++ [(d, "Error occurred: " ++ e)]) (k + 1) hproc2 with ⟨h1, h2⟩
      constructor
      · rw [h1, List.enumFrom_cons, List.filterMap_cons, List.map_append]
        simp
      · intro p hp
        rcases h2 p hp with hmem | he2
        · rcases List.mem_append.mp hmem with h3 | h3
          · exact Or.inl h3
          · refine Or.inr ⟨e, ?_⟩
            have hpe : p = (d, "Error occurred: " ++ e) := by simpa using h3
            rw [hpe]
        · exact Or.inr he2

/-- C6: with an always-failing LLM, no failure aborts the batch: every
question still gets its entry (the key sequence is unchanged), and within
each question every document that has content gets its own independent
entry, each carrying an error string of its own failed call. -/
theorem c6_failures_reported_independently (llm : LLM)
    (hfail : ∀ i s, ∃ e, llm i s = Except.error e)
    (qs : List String) (dc : List (List String)) :
    (((generate_answers_for_multiple_questions llm qs dc).1).map Prod.fst
        = dedup_keys qs) ∧
    (∀ q ∈ qs, ∃ v,
      dict_get (generate_answers_for_multiple_questions llm qs dc).1 q
        = some v ∧
      (v = none → content_doc_idxs dc = []) ∧
      (∀ l, v = some l →
        l.map Prod.fst = content_doc_idxs dc ∧
        ∀ p ∈ l, ∃ e, p.2 = "Error occurred: " ++ e)) := by
  refine ⟨generate_map_fst llm qs dc, ?_⟩
  intro q hq
  have hqmem : q ∈ ((generate_answers_for_multiple_questions llm qs
      dc).1).map Prod.fst := by
    rw [generate_map_fst, mem_dedup_keys]
    exact hq
  rcases dict_get_exists_of_mem_fst _ q hqmem with ⟨v, hv⟩
  refine ⟨v, hv, ?_⟩
  have hP := answer_questions_values llm dc
    (fun v => (v = none → content_doc_idxs dc = []) ∧
      (∀ l, v = some l →
        l.map Prod.fst = content_doc_idxs dc ∧
        ∀ p ∈ l, ∃ e, p.2 = "Error occurred: " ++ e)) ?_ qs [] 0
    (by intro p2 hp2; simp at hp2) (q, v)
    (dict_get_mem _ q v hv)
  · exact hP
  · intro q2 k
    rcases answer_docs_fail llm hfail q2 dc 0 [] [] k
      (by intro x hx; simp at hx) with ⟨h1, h2⟩
    by_cases h : (answer_docs llm q2 dc 0 [] [] k).1 = []
    · rw [if_pos h]
      constructor
      · intro _
        have h4 := h1
        rw [h, List.map_nil, List.nil_append] at h4
        unfold content_doc_idxs
        rw [show dc.enum = List.enumFrom 0 dc from rfl]
        exact h4.symm
      · intro l hl
        simp at hl
    · rw [if_neg h]
      constructor
      · intro hcontra
        simp at hcontra
      · intro l hl
        have hl2 : (answer_docs llm q2 dc 0 [] [] k).1 = l :=
          Option.some_injective _ hl
        constructor
        · rw [← hl2, h1]
          unfold content_doc_idxs
          rw [show dc.enum = List.enumFrom 0 dc from rfl]
          simp
        · intro p hp
          rcases h2 p (hl2 ▸ hp) with h3 | h3
          · simp at h3
          · exact h3

/-- Witness for C6 at a concrete input. -/
theorem c6_failures_reported_independently_witness :
    ∃ v, dict_get (generate_answers_for_multiple_questions
        (fun _ _ => Except.error "down") ["q"] [["c"]]).1 "q"
      = some v ∧
      (v = none → content_doc_idxs [["c"]] = []) ∧
      (∀ l, v = some l →
        l.map Prod.fst = content_doc_idxs [["c"]] ∧
        ∀ p ∈ l, ∃ e, p.2 = "Error occurred: " ++ e) :=
  (c6_failures_reported_independently (fun _ _ => Except.error "down")
    (fun _ _ => ⟨"down", rfl⟩) ["q"] [["c"]]).2 "q" (by decide)

lemma perform_analysis_det (llm : LLM)
    (hdet : ∀ i j s, llm i s = llm j s) (k : Nat) (q c : String) :
    (perform_analysis llm k q c).1 = (perform_analysis llm 0 q c).1 := by
  unfold perform_analysis
  rw [hdet k 0 (build_context q c)]
  cases llm 0 (build_context q c) <;> rfl

lemma answer_for_doc_det (llm : LLM)
    (hdet : ∀ i j s, llm i s = llm j s) (q : String) :
    ∀ (cs : List String) (k : Nat),
      (answer_for_doc llm q cs k).1
        = (cs.map (fun c => (perform_analysis llm 0 q c).1)).find?
            (fun a => a != "") := by
  intro cs
  induction cs with
  | nil => intro k; rfl
  | cons c rest ih =>
    intro k
    rw [answer_for_doc_cons, List.map_cons]
    by_cases hne : (perform_analysis llm k q c).1 ≠ ""
    · rw [if_pos hne]
      have hg : (perform_analysis llm 0 q c).1 ≠ "" := by
        rw [← perform_analysis_det llm hdet k q c]
        exact hne
      rw [List.find?_cons_of_pos _ (by simpa using hg)]
      show some (perform_analysis llm k q c).1 = _
      rw [perform_analysis_det llm hdet k q c]
    · rw [if_neg hne]
      push_neg at hne
      have hg : (perform_analysis llm 0 q c).1 = "" := by
        rw [← perform_analysis_det llm hdet k q c]
        exact hne
      rw [List.find?_cons_of_neg _ (by simp [hg])]
      exact ih _

lemma answer_docs_det (llm : LLM)
    (hdet : ∀ i j s, llm i s = llm j s) (q : String) :
    ∀ (dc : List (List String)) (d : Nat) (proc : List Nat)
      (acc : RelevantAnswers) (k : Nat), (∀ x ∈ proc, x < d) →
      (answer_docs llm q dc d proc acc k).1
        = acc ++ (List.enumFrom d dc).filterMap
            (fun p =>
              ((p.2.map (fun c => (perform_analysis llm 0 q c).1)).find?
                (fun a => a != "")).map (fun a => (p.1, a))) := by
  intro dc
  induction dc with
  | nil => intro d proc acc k hproc; simp [answer_docs_nil]
  | cons chunks rest ih =>
    intro d proc acc k hproc
    have hd : d ∉ proc := fun hmem => absurd (hproc d hmem) (lt_irrefl d)
    have hproc2 : ∀ x ∈ proc, x < d + 1 :=
      fun x hx => Nat.lt_succ_of_lt (hproc x hx)
    have hproc3 : ∀ x ∈ d :: proc, x < d + 1 := by
      intro x hx
      rcases List.mem_cons.mp hx with rfl | h
      · exact Nat.lt_succ_self _
      · exact Nat.lt_succ_of_lt (hproc x h)
    rw [List.enumFrom_cons, List.filterMap_cons]
    cases hF : (chunks.map
        (fun c => (perform_analysis llm 0 q c).1)).find?
        (fun a => a != "") with
    | some a =>
      have hA1 : (answer_for_doc llm q chunks k).1 = some a := by
        rw [answer_for_doc_det llm hdet q chunks k, hF]
      have hA := (Prod.mk.eta (p := answer_for_doc llm q chunks k)).symm
      rw [hA1] at hA
      rw [answer_docs_cons_some llm q chunks rest d proc acc k a
        (answer_for_doc llm q chunks k).2 hd hA,
        ih (d + 1) (d :: proc) (acc ++ [(d, a)]) _ hproc3]
      simp only [hF, Option.map_some']
      rw [List.append_assoc]
      rfl
    | none =>
      have hA1 : (answer_for_doc llm q chunks k).1 = none := by
        rw [answer_for_doc_det llm hdet q chunks k, hF]
      have hA := (Prod.mk.eta (p := answer_for_doc llm q chunks k)).symm
      rw [hA1] at hA
      rw [answer_docs_cons_none llm q chunks rest d proc acc k
        (answer_for_doc llm q chunks k).2 hd hA,
        ih (d + 1) proc acc _ hproc2]
      simp only [hF, Option.map_none']

/-- The value the orchestrator stores for a question when the oracle gives
call-index-independent replies, phrased from the spec's words: the
first-non-empty-answer scan if it found anything, else the `None`
marker. -/
def spec_answer_value (llm : LLM) (q : String)
    (dc : List (List String)) : Option RelevantAnswers :=
  if spec_first_answer_scan (fun c => (perform_analysis llm 0 q c).1) dc = []
  then none
  else some (spec_first_answer_scan
    (fun c => (perform_analysis llm 0 q c).1) dc)

lemma answer_questions_det_get (llm : LLM)
    (hdet : ∀ i j s, llm i s = llm j s) (dc : List (List String)) :
    ∀ (qs : List String) (acc : AnswerSet) (k : Nat) (q : String), q ∈ qs →
      dict_get (answer_questions llm dc qs acc k).1 q
        = some (spec_answer_value llm q dc) := by
  intro qs
  induction qs with
  | nil => intro acc k q hq; simp at hq
  | cons q2 qs ih =>
    intro acc k q hq
    rw [answer_questions_cons]
    have hval : (if (answer_docs llm q2 dc 0 [] [] k).1 = [] then none
        else some (answer_docs llm q2 dc 0 [] [] k).1)
        = spec_answer_value llm q2 dc := by
      rw [answer_docs_det llm hdet q2 dc 0 [] [] k
        (by intro x hx; simp at hx)]
      unfold spec_answer_value spec_first_answer_scan
      rw [show dc.enum = List.enumFrom 0 dc from rfl]
      simp only [List.nil_append]
    by_cases hmem : q ∈ qs
    · exact ih _ _ q hmem
    · have hqq : q = q2 := by
        rcases List.mem_cons.mp hq with h | h
        · exact h
        · exact absurd h hmem
      subst hqq
      rw [answer_questions_get_not_mem llm dc qs _ _ q hmem, hval,
        dict_get_set_self]

lemma spec_scan_from_get (gen : String → String) :
    ∀ (dc : List (List String)) (n d : Nat),
      dict_get ((List.enumFrom n dc).filterMap
          (fun p => ((p.2.map gen).find? (fun a => a != "")).map
            (fun a => (p.1, a)))) d
        = if d < n then none
          else (dc[d - n]?).bind
            (fun cs => (cs.map gen).find? (fun a => a != "")) := by
  intro dc
  induction dc with
  | nil =>
    intro n d
    show (none : Option String) = _
    simp
  | cons chunks rest ih =>
    intro n d
    rw [List.enumFrom_cons, List.filterMap_cons]
    cases hF : (chunks.map gen).find? (fun a => a != "") with
    | some a =>
      simp only [hF, Option.map_some']
      rw [dict_get]
      by_cases hnd : n = d
      · subst hnd
        rw [if_pos rfl, if_neg (lt_irrefl n), Nat.sub_self,
          List.getElem?_cons_zero]
        exact hF.symm
      · rw [if_neg hnd, ih (n + 1) d]
        by_cases hlt : d < n
        · rw [if_pos (Nat.lt_succ_of_lt hlt), if_pos hlt]
        · have hgt : n < d := Nat.lt_of_le_of_ne (Nat.le_of_not_lt hlt)
            hnd
          rw [if_neg (by omega), if_neg hlt]
          have h1 : d - n = (d - (n + 1)) + 1 := by omega
          rw [h1, List.getElem?_cons_succ]
    | none =>
      simp only [hF, Option.map_none']
      rw [ih (n + 1) d]
      by_cases hnd : n = d
      · subst hnd
        rw [if_pos (Nat.lt_succ_self n), if_neg (lt_irrefl n),
          Nat.sub_self, List.getElem?_cons_zero]
        exact hF.symm
      · by_cases hlt : d < n
        · rw [if_pos (Nat.lt_succ_of_lt hlt), if_pos hlt]
        · have hgt : n < d := Nat.lt_of_le_of_ne (Nat.le_of_not_lt hlt)
            hnd
          rw [if_neg (by omega), if_neg hlt]
          have h1 : d - n = (d - (n + 1)) + 1 := by omega
          rw [h1, List.getElem?_cons_succ]

/-- C1: with a call-index-independent oracle, the entry the orchestrator
produces for each submitted question is exactly the spec's
first-answer-wins scan: documents are visited in upload order, each
document's chunks are scanned in order, the first chunk whose answer is
non-empty is recorded under the document's index and ends that document's
scan, and a document none of whose chunks produces a non-empty answer is
absent from the question's mapping (second conjunct: an index is present
in the scan exactly when the document exists and some chunk produced a
non-empty answer, carrying the first such answer). -/
theorem c1_first_answer_wins (llm : LLM)
    (hdet : ∀ i j s, llm i s = llm j s)
    (qs : List String) (dc : List (List String)) (q : String) (hq : q ∈ qs) :
    dict_get (generate_answers_for_multiple_questions llm qs dc).1 q
        = some (spec_answer_value llm q dc) ∧
    (∀ d : Nat,
      dict_get (spec_first_answer_scan
          (fun c => (perform_analysis llm 0 q c).1) dc) d
        = (dc[d]?).bind (fun cs =>
            (cs.map (fun c => (perform_analysis llm 0 q c).1)).find?
              (fun a => a != ""))) := by
  constructor
  · exact answer_questions_det_get llm hdet dc qs [] 0 q hq
  · intro d
    unfold spec_first_answer_scan
    rw [show dc.enum = List.enumFrom 0 dc from rfl,
      spec_scan_from_get _ dc 0 d, if_neg (Nat.not_lt_zero d),
      Nat.sub_zero]

/-- Witness for C1 at a concrete input. -/
theorem c1_first_answer_wins_witness :
    dict_get (generate_answers_for_multiple_questions
        (fun _ _ => Except.error "down") ["q"] [["c"]]).1 "q"
      = some (spec_answer_value (fun _ _ => Except.error "down") "q"
          [["c"]]) :=
  (c1_first_answer_wins (fun _ _ => Except.error "down")
    (fun _ _ _ => rfl) ["q"] [["c"]] "q" (by decide)).1

/-- C8: the question batch is the textarea content split on newlines with
blank lines discarded — the parsed list equals, line by line and in
original order, the stripped non-blank lines (first conjunct), so every
parsed question is non-blank and is the strip of some input line (second
conjunct); and an empty textarea is falsy, so the click handler issues no
LLM call (its outcome does not depend on the oracle at all) and returns
the warning state instead of an answer set (last two conjuncts). -/
theorem c8_question_parsing :
    (∀ s : String, split_questions s
        = (py_split_newline s).filterMap
            (fun l => if py_strip l = "" then none else some (py_strip l))) ∧
    (∀ (s : String) (q : String), q ∈ split_questions s →
      q ≠ "" ∧ ∃ l ∈ py_split_newline s, py_strip l = q) ∧
    (∀ (llm : LLM) (dc : List (List String)),
      handle_generate_click llm "" dc = ClickOutcome.warning) ∧
    (∀ (llm llm2 : LLM) (dc : List (List String)),
      handle_generate_click llm "" dc
        = handle_generate_click llm2 "" dc) := by
  have hgen : ∀ L : List String,
      ((L.filter (fun q => py_strip q ≠ "")).map py_strip)
        = L.filterMap
            (fun l => if py_strip l = "" then none else some (py_strip l)) := by
    intro L
    induction L with
    | nil => rfl
    | cons l ls ih =>
      simp only [ne_eq, decide_not] at ih
      by_cases h : py_strip l = ""
      · simp [List.filter_cons, List.filterMap_cons, h, ih]
      · simp [List.filter_cons, List.filterMap_cons, h, ih]
  refine ⟨fun s => hgen (py_split_newline s), ?_, ?_, ?_⟩
  · intro s q hq
    unfold split_questions at hq
    rcases List.mem_map.mp hq with ⟨l, hl, rfl⟩
    have h2 := List.mem_filter.mp hl
    constructor
    · simpa using h2.2
    · exact ⟨l, h2.1, rfl⟩
  · intro llm dc
    unfold handle_generate_click
    simp
  · intro llm llm2 dc
    unfold handle_generate_click
    simp

/-- Witness for C8 at a concrete input. -/
theorem c8_question_parsing_witness :
    "a" ≠ "" ∧ ∃ l ∈ py_split_newline "a\n\n b ", py_strip l = "a" :=
  c8_question_parsing.2.1 "a\n\n b " "a" (by decide)

/-- C3 fails as stated: `fitz.open` (line 93) sits outside every `try`
block, so a wholly unreadable PDF makes extraction raise — the error
propagates instead of yielding empty extracted text. -/
theorem c3_counterexample :
    extract_pdf_text (PDFDoc.mk (Except.error "corrupt file")) 5000
        = Except.error "corrupt file" ∧
    (extract_pdf_text (PDFDoc.mk (Except.error "corrupt file"))
        5000).isOk = false := by
  constructor
  · rfl
  · rfl

/-- C3 amended: once the PDF has been opened successfully, extraction
never raises — a page whose load/text step fails is skipped whole, an
image whose OCR pipeline fails is skipped — but a document that cannot be
opened propagates the open error (PDF), and Word extraction likewise
propagates a `docx.Document` failure instead of returning empty text. -/
theorem c3_amended_extraction :
    (∀ (doc : PDFDoc) (pages : List PDFPage) (n : Nat),
      doc.fitzOpen = Except.ok pages →
      extract_pdf_text doc n
        = Except.ok (chunk_text (page_loop pages 0 "" "").1 n,
            (page_loop pages 0 "" "").2)) ∧
    (∀ (page : PDFPage) (rest : List PDFPage) (i : Nat) (pt et e : String),
      page.loadText = Except.error e →
      page_loop (page :: rest) i pt et = page_loop rest (i + 1) pt et) ∧
    (∀ (img : PDFImage) (rest : List PDFImage) (i : Nat) (pt et e : String),
      img.ocr = Except.error e →
      image_loop i (img :: rest) pt et = image_loop i rest pt et) ∧
    (∀ (d : DocxDoc) (n : Nat) (e : String),
      d.openDoc = Except.error e →
      extract_docx_text d n = Except.error e) := by
  refine ⟨?_, ?_, ?_, ?_⟩
  · intro doc pages n h
    unfold extract_pdf_text
    rw [h]
  · intro page rest i pt et e h
    simp only [page_loop, h]
  · intro img rest i pt et e h
    simp only [image_loop, h]
  · intro d n e h
    unfold extract_docx_text
    rw [h]

/-- Witness for C3's amended theorem at a concrete input. -/
theorem c3_amended_extraction_witness :
    extract_pdf_text
        (PDFDoc.mk
          (Except.ok [PDFPage.mk (Except.ok "T") (Except.ok [])])) 5000
      = Except.ok
          (chunk_text
            (page_loop [PDFPage.mk (Except.ok "T") (Except.ok [])]
              0 "" "").1 5000,
           (page_loop [PDFPage.mk (Except.ok "T") (Except.ok [])]
              0 "" "").2) :=
  c3_amended_extraction.1
    (PDFDoc.mk (Except.ok [PDFPage.mk (Except.ok "T") (Except.ok [])]))
    [PDFPage.mk (Except.ok "T") (Except.ok [])] 5000 rfl
